import Mathlib

/-!
Verification of the payroll processing core of app.py: the grouped
subtotal/rollup engine (PayrollProcessor), the deterministic sort, and the
disbursement classification pipeline (BDOConverter).  Tables are embedded as
lists of rows of cells; pandas/numpy numerics are modelled as exact rationals.
-/

/-- A spreadsheet cell.  blank models an empty cell / pandas NaN, str a
textual cell, num a numeric cell.  Numeric-dtype columns hold only num or
blank cells. -/
inductive Cell where
  | blank : Cell
  | str : String → Cell
  | num : ℚ → Cell
deriving DecidableEq

/-- A table row: list of cells indexed by column position. -/
abbrev Row := List Cell

/-- Cell at column j; out-of-range reads yield blank (tables are rectangular
in the source, the default is never exercised there). -/
def cellAt (r : Row) (j : Nat) : Cell := r.getD j Cell.blank

/-- safe_float from app.py: float coercion with default 0.  Cell.str models
non-numeric text, which raises ValueError in Python and yields the default;
blank is NaN and also yields the default. -/
def safe_float : Cell → ℚ
  | Cell.num q => q
  | _ => 0

/-- Sum of a column over a list of rows, as computed by pandas Series.sum on
a numeric column (NaN contributes 0 via skipna). -/
def colSum (rows : List Row) (j : Nat) : ℚ :=
  (rows.map fun r => safe_float (cellAt r j)).sum

/-- Truncation of a rational toward zero, as Python int-part extraction via
str(x).split on the decimal point does. -/
def truncRat (q : ℚ) : Int :=
  if q.num < 0 then -((q.num.natAbs / q.den : Nat) : Int) else ((q.num.natAbs / q.den : Nat) : Int)

/-- Python str() of a cell value.  NaN prints as nan; a whole float prints
with a trailing .0; other rationals with denominator dividing a power of ten
(all binary floats do) print their decimal digits. -/
def pyStr : Cell → String
  | Cell.blank => "nan"
  | Cell.str s => s
  | Cell.num q =>
    let sign := if q.num < 0 then "-" else ""
    let ip := q.num.natAbs / q.den
    match (List.range 31).find? (fun k => q.den ∣ 10 ^ k) with
    | some 0 => sign ++ toString ip ++ ".0"
    | some k =>
      let frac := q.num.natAbs * 10 ^ k / q.den % 10 ^ k
      let fs := toString frac
      sign ++ toString ip ++ "." ++ String.mk (List.replicate (k - fs.length) '0') ++ fs
    | none => sign ++ toString q.num.natAbs ++ "/" ++ toString q.den

/-- Python str.strip: remove leading and trailing whitespace. -/
def pyStrip (s : String) : String :=
  String.mk (((s.data.dropWhile Char.isWhitespace).reverse.dropWhile
    Char.isWhitespace).reverse)

/-- Python str.replace of a single character by the empty string. -/
def pyRemoveChar (c : Char) (s : String) : String :=
  String.mk (s.data.filter fun d => d ≠ c)

/-- The part of a string before its first period: str.split on the period,
first component. -/
def beforeDot (s : String) : String :=
  String.mk (s.data.takeWhile fun d => d ≠ '.')

/-- Python str.upper. -/
def pyUpper (s : String) : String := String.mk (s.data.map Char.toUpper)

-- ===========================================================================
-- Deterministic sort (PayrollProcessor.sort_data)
-- ===========================================================================

/-- Rank used to totalize comparison across cell kinds; blank (NaN) ranks
last, matching na_position equal to last in sort_values. -/
def cellRank : Cell → Nat
  | Cell.num _ => 0
  | Cell.str _ => 1
  | Cell.blank => 2

/-- Lexicographic comparison of character lists by code point: the order
Python string comparison denotes. -/
def charListLe : List Char → List Char → Bool
  | [], _ => true
  | _ :: _, [] => false
  | c :: cs, d :: ds => if c < d then true else if d < c then false else charListLe cs ds

/-- Total comparison on cells: numerics by value, strings lexicographically,
NaN after everything (and across kinds by rank, which never arises on the
homogeneous columns the pipeline sorts). -/
def cellLe (a b : Cell) : Bool :=
  match a, b with
  | Cell.num p, Cell.num q => decide (p ≤ q)
  | Cell.str s, Cell.str t => charListLe s.data t.data
  | _, _ => decide (cellRank a ≤ cellRank b)

/-- Lexicographic row comparison by columns 0, 1, 3: the sort keys of
sort_values in sort_data. -/
def keyLe (a b : Row) : Bool :=
  if cellAt a 0 ≠ cellAt b 0 then cellLe (cellAt a 0) (cellAt b 0)
  else if cellAt a 1 ≠ cellAt b 1 then cellLe (cellAt a 1) (cellAt b 1)
  else cellLe (cellAt a 3) (cellAt b 3)

/-- sort_data: stable ascending sort by (column 0, column 1, column 3) with
missing keys last.  pandas sort_values with several by-columns performs a
stable lexsort, embedded here as a stable merge sort. -/
def sort_data (rows : List Row) : List Row := rows.mergeSort keyLe

-- ===========================================================================
-- Grouped subtotal / rollup engine (PayrollProcessor.insert_subtotals)
-- ===========================================================================

/-- DEPT_TOTALS lookup table from app.py, indexed by the 1-based department
counter. -/
def DEPT_TOTALS : Nat → Option String
  | 1 => some "TOTAL IND2001"
  | 2 => some "TOTAL IND2005"
  | 3 => some "TOTAL IND2101"
  | 4 => some "TOTAL IND2102"
  | 5 => some "TOTAL IND202"
  | 6 => some "TOTAL IND202-1"
  | 7 => some "TOTAL IND203"
  | 8 => some "TOTAL IND203-1"
  | 9 => some "TOTAL IND204"
  | 10 => some "TOTAL IND205"
  | 11 => some "TOTAL IND503"
  | 12 => some "TOTAL IND506"
  | 13 => some "TOTAL IND702"
  | 14 => some "TOTAL D2001"
  | 15 => some "TOTAL D2005"
  | 16 => some "TOTAL IND1002"
  | _ => none

/-- Ascending insertion of a key into a sorted key list. -/
def insertSorted (k : Cell) : List Cell → List Cell
  | [] => [k]
  | x :: xs => if cellLe k x then k :: x :: xs else x :: insertSorted k xs

/-- Ascending insertion sort on cells (cellLe is total and antisymmetric on
the distinct keys this is applied to, so this computes the unique ascending
arrangement pandas groupby produces). -/
def sortCells : List Cell → List Cell
  | [] => []
  | x :: xs => insertSorted x (sortCells xs)

/-- Distinct non-null grouping keys in ascending order: pandas groupby on
column 0 visits groups in sorted key order, and the engine skips the NaN
group. -/
def groupKeys (rows : List Row) : List Cell :=
  sortCells (((rows.map fun r => cellAt r 0).filter fun c => c ≠ Cell.blank).dedup)

/-- The partition of the input belonging to one grouping key, in input
order. -/
def grpOf (rows : List Row) (k : Cell) : List Row :=
  rows.filter fun r => cellAt r 0 = k

/-- An all-blank row of the given width. -/
def blankRow (ncols : Nat) : Row := List.replicate ncols Cell.blank

/-- The subtotal row for one partition: key kept at column 0, employee count
at column 1, label at column 2 (DEPT_TOTALS entry for the counter if present,
else TOTAL followed by the key), and from column 7 on the partition sum in
each column whose whole-column dtype is numeric, blank otherwise. -/
def subtotalRow (ncols : Nat) (dtypes : List Bool) (c : Nat) (key : Cell) (grp : List Row) : Row :=
  (List.range ncols).map fun j =>
    if j = 0 then key
    else if j = 1 then Cell.num grp.length
    else if j = 2 then Cell.str ((DEPT_TOTALS c).getD ("TOTAL " ++ pyStr key))
    else if 7 ≤ j ∧ dtypes.getD j false = true then Cell.num (colSum grp j)
    else Cell.blank

/-- Group total row built by _create_group_total: blank when the bucket is
empty; otherwise label at column 2 and, for every column from 1 on, the
safe_float sum over the bucket rows whenever that sum is nonzero (a zero sum
is left blank; the label survives because label cells coerce to 0). -/
def groupTotalRow (ncols : Nat) (bucket : List Row) (label : String) : Row :=
  if bucket = [] then blankRow ncols
  else
    (List.range ncols).map fun j =>
      if j = 0 then Cell.blank
      else
        let s := (bucket.map fun r => safe_float (cellAt r j)).sum
        if s ≠ 0 then Cell.num s
        else if j = 2 then Cell.str label else Cell.blank

/-- The four rollup accumulator lists of insert_subtotals. -/
structure Buckets where
  indProd : List Row
  indQa : List Row
  indWh : List Row
  direct : List Row
deriving DecidableEq

/-- Membership tracking of insert_subtotals: the subtotal at counter c is
appended to the bucket its counter belongs to; counters 13 and 16 belong to
none. -/
def trackBucket (c : Nat) (sub : Row) (b : Buckets) : Buckets :=
  if c = 1 ∨ c = 2 then { b with indProd := b.indProd ++ [sub] }
  else if 3 ≤ c ∧ c ≤ 10 then { b with indQa := b.indQa ++ [sub] }
  else if c = 11 ∨ c = 12 then { b with indWh := b.indWh ++ [sub] }
  else if c = 14 ∨ c = 15 then { b with direct := b.direct ++ [sub] }
  else b

/-- Rows emitted right after the subtotal at the four checkpoint counters: a
rollup total over the corresponding bucket followed by a blank spacer row. -/
def checkpointRows (ncols : Nat) (c : Nat) (b : Buckets) : List Row :=
  if c = 2 then [groupTotalRow ncols b.indProd "IND PROD TOTAL", blankRow ncols]
  else if c = 10 then [groupTotalRow ncols b.indQa "IND QA TOTAL", blankRow ncols]
  else if c = 12 then [groupTotalRow ncols b.indWh "IND WAREHOUSE TOTAL", blankRow ncols]
  else if c = 15 then [groupTotalRow ncols b.direct "DIRECT PROD TOTAL", blankRow ncols]
  else []

/-- The main loop of insert_subtotals over the sorted group keys, carrying
the 1-based counter and the rollup accumulators. -/
def subtotalLoop (ncols : Nat) (dtypes : List Bool) (rows : List Row) :
    List Cell → Nat → Buckets → List Row
  | [], _, _ => []
  | k :: ks, c, b =>
    let grp := grpOf rows k
    let sub := subtotalRow ncols dtypes c k grp
    let b2 := trackBucket c sub b
    grp ++ [sub] ++ checkpointRows ncols c b2 ++ subtotalLoop ncols dtypes rows ks (c + 1) b2

/-- All employee rows of non-null partitions, concatenated in
group-processing order: the all_employee_rows accumulator. -/
def allEmployees (rows : List Row) : List Row :=
  (groupKeys rows).flatMap (grpOf rows)

/-- The grand total row: employee count at column 1, label at column 2, and
from column 7 on the sum over the original employee rows of every
numeric-dtype column. -/
def grand_total_row (ncols : Nat) (dtypes : List Bool) (emp : List Row) : Row :=
  (List.range ncols).map fun j =>
    if j = 1 then Cell.num emp.length
    else if j = 2 then Cell.str "GRAND TOTAL DAILY"
    else if 7 ≤ j ∧ dtypes.getD j false = true then Cell.num (colSum emp j)
    else Cell.blank

/-- insert_subtotals: per-group data plus subtotal rows, rollup totals at the
fixed checkpoints, and a final grand total computed over the original
employee rows only.  dtypes gives each column whole-table numeric dtype
(concatenation of group slices preserves it).  When no non-null partition
exists (a zero-row table), the source instead raises from concatenating an
empty list of frames; the model is total and returns just the grand total
row there, and no theorem relies on that degenerate case. -/
def insert_subtotals (ncols : Nat) (dtypes : List Bool) (rows : List Row) : List Row :=
  subtotalLoop ncols dtypes rows (groupKeys rows) 1 ⟨[], [], [], []⟩
    ++ [grand_total_row ncols dtypes (allEmployees rows)]

-- ===========================================================================
-- Net-pay column locator (BDOConverter.convert, first phase)
-- ===========================================================================

/-- pd.to_numeric with errors coerce: numeric cells survive, everything else
becomes NaN (dropped downstream). -/
def toNumOpt : Cell → Option ℚ
  | Cell.num q => some q
  | _ => none

/-- The strictly positive numeric values of column j, in row order: the
non_zero_values series of the locator. -/
def posVals (rows : List Row) (j : Nat) : List ℚ :=
  (((rows.map fun r => cellAt r j).filterMap toNumOpt).filter fun q => decide (0 < q))

/-- Mean of a list of rationals (only used on nonempty lists, as in the
source). -/
def meanVal (vals : List ℚ) : ℚ := vals.sum / (vals.length : ℚ)

/-- The fixed candidate index priority list of the locator. -/
def candidateCols : List Nat := [33, 34, 35, 32, 31, 40, 41, 42]

/-- First locator strategy: walk the candidate list, accept the first
in-range column with at least one positive value whose mean lies strictly
between 1000 and 200000. -/
def tryCandidates (ncols : Nat) (rows : List Row) : List Nat → Option Nat
  | [] => none
  | t :: ts =>
    if t < ncols then
      let pos := posVals rows t
      if 0 < pos.length ∧ 1000 < meanVal pos ∧ meanVal pos < 200000 then some t
      else tryCandidates ncols rows ts
    else tryCandidates ncols rows ts

/-- Descending index sequence of the second strategy: range from ncols - 1
down to max 0 (ncols - 30) exclusive. -/
def scanDescend (ncols : Nat) : List Nat :=
  (List.range' (max 0 (ncols - 30) + 1) (ncols - 1 - max 0 (ncols - 30))).reverse

/-- Second locator strategy body: accept the first index with more than 10
positive values and a mean in the plausible range. -/
def scanLoop (rows : List Row) : List Nat → Option Nat
  | [] => none
  | j :: js =>
    let pos := posVals rows j
    if 10 < pos.length ∧ 1000 < meanVal pos ∧ meanVal pos < 200000 then some j
    else scanLoop rows js

/-- Substring test, as the Python in operator on strings. -/
def containsStr (s pat : String) : Bool := go s.toList
where
  go : List Char → Bool
    | [] => pat.toList.isPrefixOf []
    | c :: cs => pat.toList.isPrefixOf (c :: cs) || go cs

/-- Lower-casing used by the header strategy (Python str.lower). -/
def lowerStr (s : String) : String := String.mk (s.data.map Char.toLower)

/-- Third locator strategy: first column whose string header contains net or
pay case-insensitively and that has more than 10 positive values.  A header
of none models a non-string column label (e.g. the integer labels produced
by reading without a header row), which the isinstance check rejects. -/
def headerLoop (headers : List (Option String)) (rows : List Row) : List Nat → Option Nat
  | [] => none
  | j :: js =>
    match headers.getD j none with
    | some name =>
      if (containsStr (lowerStr name) "net" || containsStr (lowerStr name) "pay")
          ∧ 10 < (posVals rows j).length
      then some j
      else headerLoop headers rows js
    | none => headerLoop headers rows js

/-- The net-pay column locator: the three strategies in priority order; none
models the ValueError (ColumnNotFound) raised when all fail. -/
def findNetPayCol (headers : List (Option String)) (ncols : Nat) (rows : List Row) : Option Nat :=
  match tryCandidates ncols rows candidateCols with
  | some t => some t
  | none =>
    match scanLoop rows (scanDescend ncols) with
    | some t => some t
    | none => headerLoop headers rows (List.range ncols)

-- ===========================================================================
-- Reference index build (BDOConverter.convert, database pass)
-- ===========================================================================

/-- Python str.isdigit: nonempty and all characters decimal digits. -/
def isDigits (s : String) : Bool := !s.data.isEmpty && s.data.all Char.isDigit

/-- The digit check applied to candidate identifier tokens: the token with
periods and hyphens removed must be all digits. -/
def digitCheck (s : String) : Bool := isDigits (pyRemoveChar '-' (pyRemoveChar '.' s))

/-- Normalized employee identifier from a cell: str, strip, digit check,
then keep the part before the first period.  NaN cells fail the digit check
both through the empty-string guard of the database pass and through the nan
rendering of the unguarded payroll pass. -/
def empIdOf (c : Cell) : Option String :=
  let t := pyStrip (match c with | Cell.blank => "" | other => pyStr other)
  if t ≠ "" ∧ digitCheck t = true then some (beforeDot t) else none

/-- Account-number coercion of the database pass: integer-valued numerics
print without decimals, other numerics keep the part before the point, and
strings are reduced to their digits. -/
def acctStrOf : Cell → String
  | Cell.num q => if q.den = 1 then toString q.num else toString (truncRat q)
  | Cell.str s => String.mk (s.toList.filter Char.isDigit)
  | Cell.blank => ""

/-- Python-dict insertion into an association list: overwrite in place if the
key exists, append otherwise. -/
def dinsert (d : List (String × String)) (k v : String) : List (String × String) :=
  if d.any fun p => p.1 = k then d.map fun p => if p.1 = k then (k, v) else p
  else d ++ [(k, v)]

/-- Python-dict lookup. -/
def dget (d : List (String × String)) (k : String) : Option String :=
  (d.find? fun p => p.1 = k).map fun p => p.2

/-- One database row of the lookup build: identifier from column 0; account
from column 3 accepted only when its digits-only coercion has length at
least 10; display name from column 1, replaced by a synthetic Employee name
when empty or the nan sentinel (and absent entirely when the cell is NaN). -/
def buildStep (acc : List (String × String) × List (String × String)) (row : Row) :
    List (String × String) × List (String × String) :=
  match empIdOf (cellAt row 0) with
  | none => acc
  | some emp =>
    let acct :=
      if 3 < row.length ∧ cellAt row 3 ≠ Cell.blank then
        let a := acctStrOf (cellAt row 3)
        if a ≠ "" ∧ 10 ≤ a.length then dinsert acc.1 emp a else acc.1
      else acc.1
    let name :=
      if 1 < row.length ∧ cellAt row 1 ≠ Cell.blank then
        let n := pyStrip (pyStr (cellAt row 1))
        if n ≠ "" ∧ n ≠ "nan" then dinsert acc.2 emp n
        else dinsert acc.2 emp ("Employee " ++ emp)
      else acc.2
    (acct, name)

/-- The account and name lookups built from the database table. -/
def buildLookups (dbase : List Row) : List (String × String) × List (String × String) :=
  dbase.foldl buildStep ([], [])

-- ===========================================================================
-- Disbursement classifier (BDOConverter.convert, payroll pass)
-- ===========================================================================

/-- Identifier resolution for a payroll row: the token at column 1 if it
passes the digit check, else the first of columns 0, 2, 3 whose token passes
the digit check with length at least 4.  An empty extracted token is falsy
and yields no identifier. -/
def resolveId (row : Row) : Option String :=
  let primary : String :=
    if 1 < row.length then
      match empIdOf (cellAt row 1) with
      | some t => t
      | none => ""
    else ""
  if primary ≠ "" then some primary
  else
    match ([0, 2, 3].filter fun j => j < row.length).find? (fun j =>
        let val := pyStrip (pyStr (cellAt row j))
        decide (val ≠ "") && digitCheck val && decide (4 ≤ val.length)) with
    | some j =>
      let val := pyStrip (pyStr (cellAt row j))
      let t := beforeDot val
      if t ≠ "" then some t else none
    | none => none

/-- Concatenated upper-cased text of the first five non-NaN cells, used by
the header/total keyword filter. -/
def rowText (row : Row) : String :=
  String.intercalate " " (((row.take 5).filter fun c => c ≠ Cell.blank).map
    fun c => pyUpper (pyStr c))

/-- The fixed keyword set marking header or total rows to skip. -/
def keywordHit (row : Row) : Bool :=
  ["TOTAL", "GRAND", "CCR", "CODE", "NAME", "ACCOUNT"].any fun kw => containsStr (rowText row) kw

/-- Display-name synthesis from payroll columns 3, 4, 5 when the database
has no name: Last, First and a middle initial when a third fragment exists,
a lone fragment verbatim, else a synthetic Employee name. -/
def buildName (row : Row) (empId : String) : String :=
  let parts := ([3, 4, 5].filter fun j => j < row.length).filterMap fun j =>
    let p := pyStrip (pyStr (cellAt row j))
    if p ≠ "" ∧ p ≠ "nan" then some p else none
  match parts with
  | [] => "Employee " ++ empId
  | [p] => p
  | p0 :: p1 :: rest =>
    let base := p0 ++ ", " ++ p1
    match rest with
    | [] => base
    | p2 :: _ => if p2 ≠ "" then base ++ " " ++ p2.take 1 ++ "." else base

/-- A bank disbursement record (Account No., Net Pay, Name). -/
structure BankRec where
  acctNo : String
  netPay : ℚ
  name : String
deriving DecidableEq

/-- A cash disbursement record (Emp ID, Net Pay, Name). -/
structure CashRec where
  empId : String
  netPay : ℚ
  name : String
deriving DecidableEq

/-- Classifier loop state: the two output collections, the seen-identifier
set (in insertion order), and the four skip counters. -/
structure ConvState where
  bank : List BankRec
  cash : List CashRec
  processed : List String
  skipNoId : Nat
  skipDup : Nat
  skipKeyword : Nat
  skipZero : Nat
deriving DecidableEq

/-- Initial classifier state. -/
def initState : ConvState := ⟨[], [], [], 0, 0, 0, 0⟩

/-- Classifier configuration: the two lookups and the located net-pay column
index. -/
structure ConvCfg where
  acctL : List (String × String)
  nameL : List (String × String)
  netPayCol : Nat

/-- Net pay of a row through the located column, 0 when the row is too
short. -/
def netPayOf (cfg : ConvCfg) (row : Row) : ℚ :=
  if cfg.netPayCol < row.length then safe_float (cellAt row cfg.netPayCol) else 0

/-- Digits-only normalization of a stored account number. -/
def digitsOnly (s : String) : String := String.mk (s.toList.filter Char.isDigit)

/-- Left zero-padding to 10 characters, applied only to shorter strings. -/
def pad10 (s : String) : String :=
  if s.length < 10 then String.mk (List.replicate (10 - s.length) '0') ++ s else s

/-- One payroll row of the classifier: skip when no identifier resolves,
when the identifier was already processed (duplicate), when the keyword
filter fires, or when net pay is nonpositive; otherwise resolve a name,
route to bank (account digits padded to 10 and prefixed with the 00 routing
prefix) when an account is indexed, else to cash, and mark the identifier as
processed. -/
def stepRow (cfg : ConvCfg) (st : ConvState) (row : Row) : ConvState :=
  match resolveId row with
  | none => { st with skipNoId := st.skipNoId + 1 }
  | some empId =>
    if empId ∈ st.processed then { st with skipDup := st.skipDup + 1 }
    else if keywordHit row then { st with skipKeyword := st.skipKeyword + 1 }
    else
      let netPay := netPayOf cfg row
      if netPay ≤ 0 then { st with skipZero := st.skipZero + 1 }
      else
        let name :=
          match dget cfg.nameL empId with
          | some n => n
          | none => buildName row empId
        match dget cfg.acctL empId with
        | some acct =>
          { st with
            bank := st.bank ++ [⟨"00" ++ pad10 (digitsOnly acct), netPay, name⟩],
            processed := st.processed ++ [empId] }
        | none =>
          { st with
            cash := st.cash ++ [⟨empId, netPay, name⟩],
            processed := st.processed ++ [empId] }

/-- Conversion errors: the ValueError raised when no net-pay column is
found, and the ValueError raised when both collections end empty, carrying
the account-lookup and name-lookup sizes. -/
inductive ConvErr where
  | columnNotFound : ConvErr
  | noValidRecords : Nat → Nat → ConvErr
deriving DecidableEq

/-- The returned conversion result: the two collections sorted by name and
the accumulated totals and counts. -/
structure ConvResult where
  bank : List BankRec
  cash : List CashRec
  bankTotal : ℚ
  cashTotal : ℚ
  total : ℚ
  bankCount : Nat
  cashCount : Nat
deriving DecidableEq

/-- BDOConverter.convert: locate the net-pay column, build the lookups, walk
the payroll rows, fail when both collections are empty, else return the
collections (sorted by name for presentation; the running bank and cash
counters always equal the collection lengths). -/
def bdo_convert (headers : List (Option String)) (ncols : Nat) (paste : List Row)
    (dbase : List Row) : Except ConvErr ConvResult :=
  match findNetPayCol headers ncols paste with
  | none => Except.error ConvErr.columnNotFound
  | some npc =>
    let lk := buildLookups dbase
    let st := paste.foldl (stepRow ⟨lk.1, lk.2, npc⟩) initState
    if st.bank = [] ∧ st.cash = [] then
      Except.error (ConvErr.noValidRecords lk.1.length lk.2.length)
    else
      let bankTotal := (st.bank.map fun r => r.netPay).sum
      let cashTotal := (st.cash.map fun r => r.netPay).sum
      Except.ok
        ⟨st.bank.mergeSort (fun a b => decide (a.name ≤ b.name)),
         st.cash.mergeSort (fun a b => decide (a.name ≤ b.name)),
         bankTotal, cashTotal, bankTotal + cashTotal, st.bank.length, st.cash.length⟩

-- ===========================================================================
-- Enrichment pipeline (PayrollProcessor.add_lookups / add_13th_month /
-- process)
-- ===========================================================================

/-- Series.map lookup against the database keyed by its column 0, with NaN
results replaced by the Not in dbase sentinel.  Identifier uniqueness in the
database is an assumed invariant; on violation the last row wins. -/
def lookupDb (dbase : List Row) (srcCol : Nat) (key : Cell) : Cell :=
  if key = Cell.blank then Cell.str "Not in dbase"
  else
    match dbase.reverse.find? (fun dr => cellAt dr 0 = key) with
    | some dr => if cellAt dr srcCol = Cell.blank then Cell.str "Not in dbase" else cellAt dr srcCol
    | none => Cell.str "Not in dbase"

/-- add_lookups: join the CCR code (database column 5) and account number
(database column 3) and reorder so they lead: CCR code, original column 0,
account number, then the remaining original columns. -/
def add_lookups (dbase : List Row) (rows : List Row) : List Row :=
  rows.map fun r =>
    lookupDb dbase 5 (cellAt r 0) :: cellAt r 0 :: lookupDb dbase 3 (cellAt r 0) :: r.drop 1

/-- add_13th_month: when the enriched table has more than 7 columns, append
a column holding one twelfth of the column 7 value of each row; otherwise
leave the table unchanged. -/
def add_13th_month (ncols : Nat) (rows : List Row) : List Row :=
  if 7 < ncols then rows.map fun r => r ++ [Cell.num (safe_float (cellAt r 7) / 12)] else rows

/-- Whole-column numeric dtype inference: a column is numeric when every
cell is numeric or NaN (pandas assigns float64 to such columns, object
otherwise). -/
def inferNumeric (rows : List Row) (j : Nat) : Bool :=
  rows.all fun r => match cellAt r j with
    | Cell.num _ => true
    | Cell.blank => true
    | _ => false

/-- Inferred dtypes of every column of a table. -/
def inferDtypes (ncols : Nat) (rows : List Row) : List Bool :=
  (List.range ncols).map (inferNumeric rows)

/-- PayrollProcessor.process: enrichment, sort, 13th-month column, then the
subtotal/rollup engine.  ncols is the raw payroll column count; enrichment
adds two columns and add_13th_month conditionally a third.  The source can
fail for reasons unrelated to any column-count contract: with fewer than 2
raw columns the enriched table lacks the secondary sort key column read by
sort_values, and with zero rows insert_subtotals raises; the model is total
and is cited only on inputs where the source completes. -/
def process (ncols : Nat) (dbase : List Row) (rows : List Row) : List Row :=
  let r1 := add_lookups dbase rows
  let n1 := ncols + 2
  let r2 := sort_data r1
  let r3 := add_13th_month n1 r2
  let n2 := if 7 < n1 then n1 + 1 else n1
  insert_subtotals n2 (inferDtypes n2 r3) r3

/-- Error kind of the spec contract for processPayroll. -/
inductive ProcErr where
  | insufficientColumns : ProcErr
deriving DecidableEq

/-- Modelled from the spec for comparison with the source pipeline: the
external-interface section states that processPayroll fails with
InsufficientColumns when fewer than 8 columns are present, and otherwise
runs the enrichment, sort and rollup pipeline. -/
def processPayrollSpecContract (ncols : Nat) (dbase rows : List Row) :
    Except ProcErr (List Row) :=
  if ncols < 8 then Except.error ProcErr.insufficientColumns
  else Except.ok (process ncols dbase rows)

-- ===========================================================================
-- Basic lemmas
-- ===========================================================================

theorem cellAt_rangeMap (f : Nat → Cell) {n j : Nat} (h : j < n) :
    cellAt ((List.range n).map f) j = f j := by
  simp [cellAt, List.getD_eq_getElem?_getD, h]

theorem charListLe_refl : ∀ l : List Char, charListLe l l = true
  | [] => rfl
  | c :: cs => by
    unfold charListLe
    simp only [if_neg (lt_irrefl c)]
    exact charListLe_refl cs

theorem charListLe_total : ∀ a b : List Char, charListLe a b = true ∨ charListLe b a = true
  | [], _ => Or.inl rfl
  | _ :: _, [] => Or.inr rfl
  | c :: cs, d :: ds => by
    unfold charListLe
    rcases lt_trichotomy c d with h | h | h
    · left
      rw [if_pos h]
    · subst h
      simp only [if_neg (lt_irrefl c)]
      exact charListLe_total cs ds
    · right
      rw [if_pos h]

theorem charListLe_trans : ∀ {a b c : List Char},
    charListLe a b = true → charListLe b c = true → charListLe a c = true
  | [], _, _, _, _ => rfl
  | _ :: _, [], _, hab, _ => by simp [charListLe] at hab
  | _ :: _, _ :: _, [], _, hbc => by simp [charListLe] at hbc
  | x :: xs, y :: ys, z :: zs, hab, hbc => by
    unfold charListLe at hab hbc ⊢
    rcases lt_trichotomy x y with h1 | h1 | h1
    · rcases lt_trichotomy y z with h2 | h2 | h2
      · rw [if_pos (lt_trans h1 h2)]
      · subst h2
        rw [if_pos h1]
      · rw [if_neg (lt_asymm h2), if_pos h2] at hbc
        exact absurd hbc (by decide)
    · subst h1
      simp only [if_neg (lt_irrefl x)] at hab
      rcases lt_trichotomy x z with h2 | h2 | h2
      · rw [if_pos h2]
      · subst h2
        simp only [if_neg (lt_irrefl x)] at hbc ⊢
        exact charListLe_trans hab hbc
      · rw [if_neg (lt_asymm h2), if_pos h2] at hbc
        exact absurd hbc (by decide)
    · rw [if_neg (lt_asymm h1), if_pos h1] at hab
      exact absurd hab (by decide)

theorem charListLe_antisymm : ∀ {a b : List Char},
    charListLe a b = true → charListLe b a = true → a = b
  | [], [], _, _ => rfl
  | [], _ :: _, _, hba => by simp [charListLe] at hba
  | _ :: _, [], hab, _ => by simp [charListLe] at hab
  | x :: xs, y :: ys, hab, hba => by
    unfold charListLe at hab hba
    rcases lt_trichotomy x y with h | h | h
    · rw [if_neg (lt_asymm h), if_pos h] at hba
      exact absurd hba (by decide)
    · subst h
      simp only [if_neg (lt_irrefl x)] at hab hba
      rw [charListLe_antisymm hab hba]
    · rw [if_neg (lt_asymm h), if_pos h] at hab
      exact absurd hab (by decide)

theorem cellLe_refl : ∀ a : Cell, cellLe a a = true
  | Cell.blank => rfl
  | Cell.str s => charListLe_refl s.data
  | Cell.num q => by simp [cellLe]

theorem cellLe_total : ∀ a b : Cell, cellLe a b = true ∨ cellLe b a = true
  | Cell.blank, Cell.blank => Or.inl rfl
  | Cell.blank, Cell.str _ => Or.inr rfl
  | Cell.blank, Cell.num _ => Or.inr rfl
  | Cell.str _, Cell.blank => Or.inl rfl
  | Cell.str s, Cell.str t => charListLe_total s.data t.data
  | Cell.str _, Cell.num _ => Or.inr rfl
  | Cell.num _, Cell.blank => Or.inl rfl
  | Cell.num _, Cell.str _ => Or.inl rfl
  | Cell.num p, Cell.num q => by
    rcases le_total p q with h | h
    · exact Or.inl (by simp [cellLe, h])
    · exact Or.inr (by simp [cellLe, h])

theorem cellLe_trans : ∀ {a b c : Cell},
    cellLe a b = true → cellLe b c = true → cellLe a c = true := by
  intro a b c hab hbc
  cases a <;> cases b <;> cases c <;>
    first
      | rfl
      | exact charListLe_trans hab hbc
      | exact (by
          simp only [cellLe, decide_eq_true_eq] at hab hbc ⊢
          exact le_trans hab hbc)
      | simp [cellLe, cellRank] at hab hbc ⊢

theorem cellLe_antisymm : ∀ {a b : Cell},
    cellLe a b = true → cellLe b a = true → a = b
  | Cell.blank, Cell.blank, _, _ => rfl
  | Cell.str s, Cell.str t, hab, hba => by
    have h := charListLe_antisymm (a := s.data) (b := t.data) hab hba
    cases s
    cases t
    rw [show String.mk _ = String.mk _ from congrArg String.mk h]
  | Cell.num p, Cell.num q, hab, hba => by
    simp only [cellLe, decide_eq_true_eq] at hab hba
    rw [le_antisymm hab hba]
  | Cell.blank, Cell.str _, hab, _ => by simp [cellLe, cellRank] at hab
  | Cell.blank, Cell.num _, hab, _ => by simp [cellLe, cellRank] at hab
  | Cell.str _, Cell.blank, _, hba => by simp [cellLe, cellRank] at hba
  | Cell.str _, Cell.num _, hab, _ => by simp [cellLe, cellRank] at hab
  | Cell.num _, Cell.blank, _, hba => by simp [cellLe, cellRank] at hba
  | Cell.num _, Cell.str _, _, hba => by simp [cellLe, cellRank] at hba

/-- One level of lexicographic comparison over a projection, used to factor
keyLe. -/
def lexStep (f : Row → Cell) (tail : Row → Row → Bool) (a b : Row) : Bool :=
  if f a ≠ f b then cellLe (f a) (f b) else tail a b

/-- The inner two levels of the keyLe comparison. -/
def keyTail1 : Row → Row → Bool :=
  lexStep (fun r => cellAt r 1) fun a b => cellLe (cellAt a 3) (cellAt b 3)

theorem keyLe_eq_lexStep : keyLe = lexStep (fun r => cellAt r 0) keyTail1 := rfl

theorem lexStep_total (f : Row → Cell) (tail : Row → Row → Bool)
    (ht : ∀ a b, tail a b = true ∨ tail b a = true) (a b : Row) :
    lexStep f tail a b = true ∨ lexStep f tail b a = true := by
  unfold lexStep
  by_cases h : f a = f b
  · simp [h, ht a b]
  · simp [h, Ne.symm h, cellLe_total (f a) (f b)]

theorem lexStep_trans (f : Row → Cell) (tail : Row → Row → Bool)
    (ht : ∀ a b c, tail a b = true → tail b c = true → tail a c = true)
    {a b c : Row} (hab : lexStep f tail a b = true) (hbc : lexStep f tail b c = true) :
    lexStep f tail a c = true := by
  unfold lexStep at hab hbc ⊢
  by_cases h1 : f a = f b <;> by_cases h2 : f b = f c
  · rw [if_neg (not_not_intro h1)] at hab
    rw [if_neg (not_not_intro h2)] at hbc
    rw [if_neg (not_not_intro (h1.trans h2))]
    exact ht a b c hab hbc
  · rw [if_pos h2] at hbc
    have hac : f a ≠ f c := by rw [h1]; exact h2
    rw [if_pos hac, h1]
    exact hbc
  · rw [if_pos h1] at hab
    have hac : f a ≠ f c := by rw [← h2]; exact h1
    rw [if_pos hac, ← h2]
    exact hab
  · rw [if_pos h1] at hab
    rw [if_pos h2] at hbc
    by_cases h3 : f a = f c
    · have hba : cellLe (f b) (f a) = true := by rw [h3]; exact hbc
      exact absurd (cellLe_antisymm hab hba) h1
    · rw [if_pos h3]
      exact cellLe_trans hab hbc

theorem keyTail1_trans {a b c : Row} (h1 : keyTail1 a b = true) (h2 : keyTail1 b c = true) :
    keyTail1 a c = true := by
  unfold keyTail1 at h1 h2 ⊢
  exact lexStep_trans (fun r => cellAt r 1)
    (fun a b => cellLe (cellAt a 3) (cellAt b 3))
    (fun _ _ _ u v => cellLe_trans u v) h1 h2

theorem keyLe_total (a b : Row) : keyLe a b = true ∨ keyLe b a = true := by
  rw [keyLe_eq_lexStep]
  apply lexStep_total
  intro x y
  apply lexStep_total
  intro u v
  exact cellLe_total _ _

theorem keyLe_trans {a b c : Row} (hab : keyLe a b = true) (hbc : keyLe b c = true) :
    keyLe a c = true := by
  rw [keyLe_eq_lexStep] at hab hbc ⊢
  exact lexStep_trans (fun r => cellAt r 0) keyTail1
    (fun _ _ _ u v => keyTail1_trans u v) hab hbc

theorem keyLe_total_bool (a b : Row) : (keyLe a b || keyLe b a) = true := by
  rcases keyLe_total a b with h | h <;> simp [h]

theorem keyLe_trans3 (a b c : Row) (h1 : keyLe a b = true) (h2 : keyLe b c = true) :
    keyLe a c = true := keyLe_trans h1 h2

theorem keyLe_of_eq_keys {a b : Row} (h0 : cellAt a 0 = cellAt b 0)
    (h1 : cellAt a 1 = cellAt b 1) (h3 : cellAt a 3 = cellAt b 3) : keyLe a b = true := by
  unfold keyLe
  simp [h0, h1, h3, cellLe_refl]

-- ===========================================================================
-- C8: deterministic stable sort
-- ===========================================================================

/-- C8: sort_data orders the table ascending by (grouping key, identifier
column, secondary key) with missing grouping keys last, and it is stable:
rows with identical values in all three sort keys keep their relative input
order. -/
theorem sort_data_spec (rows : List Row) :
    List.Perm (sort_data rows) rows ∧
    (sort_data rows).Pairwise (fun a b => keyLe a b = true) ∧
    (sort_data rows).Pairwise
      (fun a b => cellAt a 0 = Cell.blank → cellAt b 0 = Cell.blank) ∧
    ∀ a b : Row, cellAt a 0 = cellAt b 0 → cellAt a 1 = cellAt b 1 →
      cellAt a 3 = cellAt b 3 → List.Sublist [a, b] rows →
      List.Sublist [a, b] (sort_data rows) := by
  refine ⟨List.mergeSort_perm rows keyLe, ?_, ?_, ?_⟩
  · exact List.sorted_mergeSort keyLe_trans3 keyLe_total_bool rows
  · apply List.Pairwise.imp ?_
      (List.sorted_mergeSort keyLe_trans3 keyLe_total_bool rows)
    intro a b hle ha
    unfold keyLe at hle
    by_cases h : cellAt a 0 = cellAt b 0
    · rw [← h, ha]
    · rw [if_pos h] at hle
      rw [ha] at hle h
      cases hb : cellAt b 0 <;> simp_all [cellLe, cellRank]
  · intro a b h0 h1 h3 hsub
    exact List.pair_sublist_mergeSort keyLe_trans3
      keyLe_total_bool (keyLe_of_eq_keys h0 h1 h3) hsub

/-- Concrete corroboration of the stability clause of sort_data_spec: two
equal-key rows preceded by a larger-key row keep their relative order. -/
theorem sort_data_spec_witness :
    List.Sublist
      [[Cell.str "A", Cell.num 1, Cell.str "x", Cell.num 2],
       [Cell.str "A", Cell.num 1, Cell.str "y", Cell.num 2]]
      (sort_data [[Cell.str "B", Cell.num 1, Cell.str "w", Cell.num 2],
        [Cell.str "A", Cell.num 1, Cell.str "x", Cell.num 2],
        [Cell.str "A", Cell.num 1, Cell.str "y", Cell.num 2]]) :=
  (sort_data_spec _).2.2.2 _ _ rfl rfl rfl (by decide)

-- ===========================================================================
-- Partition permutation lemmas
-- ===========================================================================

theorem filter_append_perm_or {α : Type} (p q : α → Bool)
    (hdisj : ∀ x, p x = true → q x = false) (l : List α) :
    List.Perm (l.filter p ++ l.filter q) (l.filter fun x => p x || q x) := by
  induction l with
  | nil => simp
  | cons x xs ih =>
    cases hp : p x with
    | true =>
      have hq := hdisj x hp
      simp only [List.filter_cons, hp, hq, Bool.true_or, if_true, List.cons_append]
      exact ih.cons x
    | false =>
      cases hq : q x with
      | true =>
        simp only [List.filter_cons, hp, hq, Bool.false_or, if_true, if_false]
        exact List.perm_middle.trans (ih.cons x)
      | false =>
        simp only [List.filter_cons, hp, hq, Bool.false_or, if_false]
        exact ih

theorem flatMap_grpOf_perm (rows : List Row) :
    ∀ ks : List Cell, ks.Nodup →
      List.Perm (ks.flatMap (grpOf rows))
        (rows.filter fun r => decide (cellAt r 0 ∈ ks)) := by
  intro ks
  induction ks with
  | nil => simp
  | cons k ks ih =>
    intro hnd
    have hk : k ∉ ks := (List.nodup_cons.mp hnd).1
    have ihp := ih (List.nodup_cons.mp hnd).2
    rw [List.flatMap_cons]
    refine List.Perm.trans (List.Perm.append_left _ ihp) ?_
    refine List.Perm.trans (filter_append_perm_or _ _ ?_ rows) ?_
    · intro r h1
      have h1p : cellAt r 0 = k := of_decide_eq_true h1
      apply decide_eq_false
      intro hmem
      exact hk (h1p ▸ hmem)
    · apply List.Perm.of_eq
      apply List.filter_congr
      intro r _
      simp [List.mem_cons]

theorem insertSorted_perm (k : Cell) (l : List Cell) :
    List.Perm (insertSorted k l) (k :: l) := by
  induction l with
  | nil => exact List.Perm.refl _
  | cons x xs ih =>
    unfold insertSorted
    by_cases h : cellLe k x = true
    · rw [if_pos h]
    · rw [if_neg h]
      exact (ih.cons x).trans (List.Perm.swap k x xs)

theorem sortCells_perm (l : List Cell) : List.Perm (sortCells l) l := by
  induction l with
  | nil => exact List.Perm.refl _
  | cons x xs ih => exact (insertSorted_perm x (sortCells xs)).trans (ih.cons x)

theorem groupKeys_nodup (rows : List Row) : (groupKeys rows).Nodup := by
  unfold groupKeys
  exact (sortCells_perm _).symm.nodup (List.nodup_dedup _)

theorem mem_groupKeys {rows : List Row} {k : Cell} :
    k ∈ groupKeys rows ↔
      k ∈ (rows.map fun r => cellAt r 0) ∧ k ≠ Cell.blank := by
  unfold groupKeys
  rw [(sortCells_perm _).mem_iff, List.mem_dedup, List.mem_filter]
  simp

/-- The concatenation of the non-null partitions is a permutation of the
non-null-key rows of the input. -/
theorem allEmployees_perm (rows : List Row) :
    List.Perm (allEmployees rows) (rows.filter fun r => cellAt r 0 ≠ Cell.blank) := by
  unfold allEmployees
  refine (flatMap_grpOf_perm rows (groupKeys rows) (groupKeys_nodup rows)).trans
    (List.Perm.of_eq ?_)
  apply List.filter_congr
  intro r hr
  rw [decide_eq_decide]
  rw [mem_groupKeys]
  constructor
  · intro h
    exact h.2
  · intro h
    exact ⟨List.mem_map.mpr ⟨r, hr, rfl⟩, h⟩

-- ===========================================================================
-- C1: grand total over original employee rows only
-- ===========================================================================

/-- C1: insert_subtotals ends with exactly one grand total row, whose label
is GRAND TOTAL DAILY, whose employee count equals the number of original
employee rows in non-null partitions, and whose value in every numeric
column from position 7 on is the sum of that column over the original
employee rows only (the grand total row is built from allEmployees, so
subtotal and rollup rows never contribute). -/
theorem grand_total_daily (ncols : Nat) (dtypes : List Bool) (rows : List Row)
    (h2 : 2 < ncols) :
    (∃ body, insert_subtotals ncols dtypes rows
        = body ++ [grand_total_row ncols dtypes (allEmployees rows)]) ∧
    cellAt (grand_total_row ncols dtypes (allEmployees rows)) 2
      = Cell.str "GRAND TOTAL DAILY" ∧
    cellAt (grand_total_row ncols dtypes (allEmployees rows)) 1
      = Cell.num ((rows.filter fun r => cellAt r 0 ≠ Cell.blank).length) ∧
    ∀ j, 7 ≤ j → j < ncols → dtypes.getD j false = true →
      cellAt (grand_total_row ncols dtypes (allEmployees rows)) j
        = Cell.num (colSum (rows.filter fun r => cellAt r 0 ≠ Cell.blank) j) := by
  refine ⟨⟨subtotalLoop ncols dtypes rows (groupKeys rows) 1 ⟨[], [], [], []⟩, rfl⟩, ?_, ?_, ?_⟩
  · unfold grand_total_row
    rw [cellAt_rangeMap _ h2]
    norm_num
  · unfold grand_total_row
    rw [cellAt_rangeMap _ (show 1 < ncols by omega)]
    rw [if_pos rfl]
    exact congrArg (fun n : Nat => Cell.num (n : ℚ)) (allEmployees_perm rows).length_eq
  · intro j h7 hj hd
    unfold grand_total_row
    rw [cellAt_rangeMap _ hj]
    rw [if_neg (by omega), if_neg (by omega), if_pos ⟨h7, hd⟩]
    have : colSum (allEmployees rows) j
        = colSum (rows.filter fun r => cellAt r 0 ≠ Cell.blank) j := by
      unfold colSum
      exact ((allEmployees_perm rows).map fun r => safe_float (cellAt r j)).sum_eq
    rw [this]

/-- Concrete input for the grand total witness: two rows in group A and one
null-key row. -/
def w1rows : List Row :=
  [[Cell.str "A", Cell.num 1, Cell.blank, Cell.blank, Cell.blank, Cell.blank, Cell.blank,
    Cell.num 5],
   [Cell.str "A", Cell.num 2, Cell.blank, Cell.blank, Cell.blank, Cell.blank, Cell.blank,
    Cell.num 7],
   [Cell.blank, Cell.num 3, Cell.blank, Cell.blank, Cell.blank, Cell.blank, Cell.blank,
    Cell.num 100]]

/-- Dtypes of the grand total witness table: only column 7 numeric. -/
def w1dtypes : List Bool := [false, false, false, false, false, false, false, true]

/-- Concrete corroboration of grand_total_daily. -/
theorem grand_total_daily_witness :
    cellAt (grand_total_row 8 w1dtypes (allEmployees w1rows)) 1
        = Cell.num ((w1rows.filter fun r => cellAt r 0 ≠ Cell.blank).length) ∧
      cellAt (grand_total_row 8 w1dtypes (allEmployees w1rows)) 7
        = Cell.num (colSum (w1rows.filter fun r => cellAt r 0 ≠ Cell.blank) 7) :=
  ⟨(grand_total_daily 8 w1dtypes w1rows (by decide)).2.2.1,
   (grand_total_daily 8 w1dtypes w1rows (by decide)).2.2.2 7 (by decide) (by decide) (by decide)⟩

-- ===========================================================================
-- Closed-form characterization of the subtotal loop
-- ===========================================================================

/-- The grouping key visited at 1-based counter c. -/
def keyAt (rows : List Row) (c : Nat) : Cell := (groupKeys rows).getD (c - 1) Cell.blank

/-- The partition visited at counter c. -/
def grpAt (rows : List Row) (c : Nat) : List Row := grpOf rows (keyAt rows c)

/-- The subtotal row emitted at counter c. -/
def subAt (ncols : Nat) (dtypes : List Bool) (rows : List Row) (c : Nat) : Row :=
  subtotalRow ncols dtypes c (keyAt rows c) (grpAt rows c)

/-- The bucket accumulators after the first n counters have been processed. -/
def bucketsAcc (sub : Nat → Row) : Nat → Buckets
  | 0 => ⟨[], [], [], []⟩
  | n + 1 => trackBucket (n + 1) (sub (n + 1)) (bucketsAcc sub n)

theorem keyAt_eq (rows : List Row) {n : Nat} (hn : n < (groupKeys rows).length) :
    keyAt rows (n + 1) = (groupKeys rows)[n] := by
  unfold keyAt
  simp [List.getD_eq_getElem?_getD, List.getElem?_eq_getElem hn]

/-- Each counter position of the loop contributes the partition, its
subtotal, and the checkpoint rows computed from the accumulated buckets, as
a contiguous segment of the output. -/
theorem subtotalLoop_segment (ncols : Nat) (dtypes : List Bool) (rows : List Row) :
    ∀ (i n : Nat) (b : Buckets), b = bucketsAcc (subAt ncols dtypes rows) n →
      n + i < (groupKeys rows).length →
      ∃ pre suf, subtotalLoop ncols dtypes rows ((groupKeys rows).drop n) (n + 1) b =
        pre ++ (grpAt rows (n + i + 1) ++ [subAt ncols dtypes rows (n + i + 1)] ++
          checkpointRows ncols (n + i + 1) (bucketsAcc (subAt ncols dtypes rows) (n + i + 1)))
          ++ suf := by
  intro i
  induction i with
  | zero =>
    intro n b hb hlt
    have hn : n < (groupKeys rows).length := by omega
    rw [List.drop_eq_getElem_cons hn]
    simp only [subtotalLoop]
    refine ⟨[], subtotalLoop ncols dtypes rows ((groupKeys rows).drop (n + 1)) (n + 1 + 1)
      (trackBucket (n + 1)
        (subtotalRow ncols dtypes (n + 1) ((groupKeys rows)[n])
          (grpOf rows ((groupKeys rows)[n]))) b), ?_⟩
    have hkey : (groupKeys rows)[n] = keyAt rows (n + 1) := (keyAt_eq rows hn).symm
    rw [hkey, hb]
    have hsub : subtotalRow ncols dtypes (n + 1) (keyAt rows (n + 1))
        (grpOf rows (keyAt rows (n + 1))) = subAt ncols dtypes rows (n + 1) := rfl
    have hbb : trackBucket (n + 1) (subAt ncols dtypes rows (n + 1))
        (bucketsAcc (subAt ncols dtypes rows) n)
        = bucketsAcc (subAt ncols dtypes rows) (n + 1) := rfl
    rw [hsub, hbb]
    simp only [Nat.add_zero, List.nil_append, List.append_assoc, grpAt]
  | succ i ih =>
    intro n b hb hlt
    have hn : n < (groupKeys rows).length := by omega
    rw [List.drop_eq_getElem_cons hn]
    simp only [subtotalLoop]
    have hkey : (groupKeys rows)[n] = keyAt rows (n + 1) := (keyAt_eq rows hn).symm
    rw [hkey, hb]
    have hsub : subtotalRow ncols dtypes (n + 1) (keyAt rows (n + 1))
        (grpOf rows (keyAt rows (n + 1))) = subAt ncols dtypes rows (n + 1) := rfl
    have hbb : trackBucket (n + 1) (subAt ncols dtypes rows (n + 1))
        (bucketsAcc (subAt ncols dtypes rows) n)
        = bucketsAcc (subAt ncols dtypes rows) (n + 1) := rfl
    rw [hsub, hbb]
    obtain ⟨pre, suf, heq⟩ := ih (n + 1) (bucketsAcc (subAt ncols dtypes rows) (n + 1)) rfl
      (by omega)
    have harith : n + 1 + i + 1 = n + (i + 1) + 1 := by omega
    rw [harith] at heq
    rw [heq]
    refine ⟨grpOf rows (keyAt rows (n + 1)) ++ [subAt ncols dtypes rows (n + 1)] ++
      checkpointRows ncols (n + 1) (bucketsAcc (subAt ncols dtypes rows) (n + 1)) ++ pre,
      suf, ?_⟩
    simp [List.append_assoc]

/-- Segment form of insert_subtotals at each counter position. -/
theorem insert_subtotals_segment (ncols : Nat) (dtypes : List Bool) (rows : List Row)
    (i : Nat) (hi : i < (groupKeys rows).length) :
    ∃ pre suf, insert_subtotals ncols dtypes rows =
      pre ++ (grpAt rows (i + 1) ++ [subAt ncols dtypes rows (i + 1)] ++
        checkpointRows ncols (i + 1) (bucketsAcc (subAt ncols dtypes rows) (i + 1)))
        ++ suf := by
  obtain ⟨pre, suf, h⟩ := subtotalLoop_segment ncols dtypes rows i 0
    (bucketsAcc (subAt ncols dtypes rows) 0) rfl (by omega)
  simp only [Nat.zero_add, List.drop_zero] at h
  refine ⟨pre, suf ++ [grand_total_row ncols dtypes (allEmployees rows)], ?_⟩
  unfold insert_subtotals
  have hb0 : (⟨[], [], [], []⟩ : Buckets) = bucketsAcc (subAt ncols dtypes rows) 0 := rfl
  rw [hb0, h]
  simp [List.append_assoc]

-- ===========================================================================
-- C2: per-group subtotal rows
-- ===========================================================================

/-- C2: each visited non-null partition is emitted unchanged, immediately
followed by its single subtotal row; the subtotal carries the partition size
at column 1, the DEPT_TOTALS label for the 1-based counter (or the TOTAL key
fallback) at column 2, and from position 7 on the partition sum exactly in
the whole-column-numeric fields, blank elsewhere. -/
theorem subtotal_per_group (ncols : Nat) (dtypes : List Bool) (rows : List Row)
    (h8 : 8 ≤ ncols) (i : Nat) (hi : i < (groupKeys rows).length) :
    (∃ pre suf, insert_subtotals ncols dtypes rows =
      pre ++ grpAt rows (i + 1) ++ [subAt ncols dtypes rows (i + 1)] ++ suf) ∧
    grpAt rows (i + 1) = rows.filter (fun r => cellAt r 0 = keyAt rows (i + 1)) ∧
    cellAt (subAt ncols dtypes rows (i + 1)) 1
      = Cell.num ((grpAt rows (i + 1)).length) ∧
    cellAt (subAt ncols dtypes rows (i + 1)) 2
      = Cell.str ((DEPT_TOTALS (i + 1)).getD ("TOTAL " ++ pyStr (keyAt rows (i + 1)))) ∧
    ∀ j, 7 ≤ j → j < ncols →
      cellAt (subAt ncols dtypes rows (i + 1)) j
        = if dtypes.getD j false = true then Cell.num (colSum (grpAt rows (i + 1)) j)
          else Cell.blank := by
  refine ⟨?_, rfl, ?_, ?_, ?_⟩
  · obtain ⟨pre, suf, h⟩ := insert_subtotals_segment ncols dtypes rows i hi
    refine ⟨pre,
      checkpointRows ncols (i + 1) (bucketsAcc (subAt ncols dtypes rows) (i + 1)) ++ suf, ?_⟩
    rw [h]
    simp [List.append_assoc]
  · unfold subAt subtotalRow
    rw [cellAt_rangeMap _ (show 1 < ncols by omega)]
    norm_num
  · unfold subAt subtotalRow
    rw [cellAt_rangeMap _ (show 2 < ncols by omega)]
    norm_num
  · intro j h7 hj
    unfold subAt subtotalRow
    rw [cellAt_rangeMap _ hj]
    rw [if_neg (by omega), if_neg (by omega), if_neg (by omega)]
    by_cases hd : dtypes.getD j false = true
    · rw [if_pos ⟨h7, hd⟩, if_pos hd]
    · rw [if_neg (by tauto), if_neg hd]

/-- Concrete corroboration of subtotal_per_group on the w1rows table. -/
theorem subtotal_per_group_witness :
    cellAt (subAt 8 w1dtypes w1rows 1) 1 = Cell.num ((grpAt w1rows 1).length) ∧
    cellAt (subAt 8 w1dtypes w1rows 1) 7
      = if w1dtypes.getD 7 false = true then Cell.num (colSum (grpAt w1rows 1) 7)
        else Cell.blank :=
  ⟨(subtotal_per_group 8 w1dtypes w1rows (by decide) 0 (by decide)).2.2.1,
   (subtotal_per_group 8 w1dtypes w1rows (by decide) 0 (by decide)).2.2.2.2 7
     (by decide) (by decide)⟩

-- ===========================================================================
-- C3: rollup totals at the fixed checkpoints
-- ===========================================================================

/-- The four rollup checkpoints: counter value, label, and the counter
bucket rolled up at that point. -/
def checkpointSpec : List (Nat × String × List Nat) :=
  [(2, "IND PROD TOTAL", [1, 2]),
   (10, "IND QA TOTAL", [3, 4, 5, 6, 7, 8, 9, 10]),
   (12, "IND WAREHOUSE TOTAL", [11, 12]),
   (15, "DIRECT PROD TOTAL", [14, 15])]

theorem checkpointSpec_facts {c : Nat} {lab : String} {mem : List Nat}
    (h : (c, lab, mem) ∈ checkpointSpec) : 1 ≤ c ∧ mem ≠ [] := by
  simp [checkpointSpec] at h
  rcases h with ⟨rfl, rfl, rfl⟩ | ⟨rfl, rfl, rfl⟩ | ⟨rfl, rfl, rfl⟩ | ⟨rfl, rfl, rfl⟩ <;>
    simp

theorem checkpointRows_eq (ncols : Nat) (sub : Nat → Row) {c : Nat} {lab : String}
    {mem : List Nat} (hmem : (c, lab, mem) ∈ checkpointSpec) :
    checkpointRows ncols c (bucketsAcc sub c)
      = [groupTotalRow ncols (mem.map sub) lab, blankRow ncols] := by
  simp [checkpointSpec] at hmem
  rcases hmem with ⟨rfl, rfl, rfl⟩ | ⟨rfl, rfl, rfl⟩ | ⟨rfl, rfl, rfl⟩ | ⟨rfl, rfl, rfl⟩ <;>
    rfl

theorem cellAt_blankRow {ncols j : Nat} (h : j < ncols) :
    cellAt (blankRow ncols) j = Cell.blank := by
  simp [cellAt, blankRow, List.getD_eq_getElem?_getD, List.getElem?_replicate, h]

/-- Cell content of a nonempty group total row: the label survives at column
2 when the bucket sums to zero there, and every other column from 1 on holds
the bucket sum when it is nonzero and blank otherwise. -/
theorem groupTotalRow_cells (ncols : Nat) (bucket : List Row) (lab : String)
    (hb : bucket ≠ []) (h2 : 2 < ncols)
    (hz : ∀ r ∈ bucket, safe_float (cellAt r 2) = 0) :
    cellAt (groupTotalRow ncols bucket lab) 2 = Cell.str lab ∧
    ∀ j, 1 ≤ j → j < ncols → j ≠ 2 →
      cellAt (groupTotalRow ncols bucket lab) j
        = if (bucket.map fun r => safe_float (cellAt r j)).sum ≠ 0
          then Cell.num ((bucket.map fun r => safe_float (cellAt r j)).sum)
          else Cell.blank := by
  constructor
  · unfold groupTotalRow
    rw [if_neg hb]
    rw [cellAt_rangeMap _ h2]
    have hzero : ((bucket.map fun r => safe_float (cellAt r 2)).sum : ℚ) = 0 := by
      apply List.sum_eq_zero
      intro x hx
      obtain ⟨r, hr, rfl⟩ := List.mem_map.mp hx
      exact hz r hr
    simp only [if_neg (by omega : ¬(2 : Nat) = 0)]
    rw [if_neg (by rw [hzero]; simp)]
    simp
  · intro j h1 hj hne
    unfold groupTotalRow
    rw [if_neg hb]
    rw [cellAt_rangeMap _ hj]
    rw [if_neg (by omega)]
    by_cases hs : ((bucket.map fun r => safe_float (cellAt r j)).sum : ℚ) ≠ 0
    · rw [if_pos hs, if_pos hs]
    · rw [if_neg hs, if_neg hs, if_neg hne]

theorem safe_float_subAt_two (ncols : Nat) (dtypes : List Bool) (rows : List Row)
    (h2 : 2 < ncols) (c : Nat) :
    safe_float (cellAt (subAt ncols dtypes rows c) 2) = 0 := by
  unfold subAt subtotalRow
  rw [cellAt_rangeMap _ h2]
  norm_num [safe_float]

/-- C3: right after the subtotal at counters 2, 10, 12 and 15 the engine
emits one rollup total over exactly the declared counter bucket with the
declared label, followed by one fully blank spacer row; the rollup holds in
every field from 1 on the bucket sum when nonzero and blank when the sum is
exactly zero, and counters 13 and 16 belong to no bucket. -/
theorem rollup_checkpoints (ncols : Nat) (dtypes : List Bool) (rows : List Row)
    (h8 : 8 ≤ ncols) (c : Nat) (lab : String) (mem : List Nat)
    (hmem : (c, lab, mem) ∈ checkpointSpec) (hc : c ≤ (groupKeys rows).length) :
    (∃ pre suf, insert_subtotals ncols dtypes rows =
      pre ++ [groupTotalRow ncols (mem.map (subAt ncols dtypes rows)) lab, blankRow ncols]
        ++ suf) ∧
    cellAt (groupTotalRow ncols (mem.map (subAt ncols dtypes rows)) lab) 2
      = Cell.str lab ∧
    (∀ j, 1 ≤ j → j < ncols → j ≠ 2 →
      cellAt (groupTotalRow ncols (mem.map (subAt ncols dtypes rows)) lab) j
        = if (((mem.map (subAt ncols dtypes rows)).map
                fun r => safe_float (cellAt r j)).sum) ≠ 0
          then Cell.num (((mem.map (subAt ncols dtypes rows)).map
                fun r => safe_float (cellAt r j)).sum)
          else Cell.blank) ∧
    (∀ j, j < ncols → cellAt (blankRow ncols) j = Cell.blank) ∧
    (∀ sub b, trackBucket 13 sub b = b ∧ trackBucket 16 sub b = b) := by
  obtain ⟨hcpos, hmemne⟩ := checkpointSpec_facts hmem
  have hmapne : mem.map (subAt ncols dtypes rows) ≠ [] := by
    simpa using hmemne
  have hcells := groupTotalRow_cells ncols (mem.map (subAt ncols dtypes rows)) lab hmapne
    (by omega)
    (by
      intro r hr
      obtain ⟨cc, hcc, rfl⟩ := List.mem_map.mp hr
      exact safe_float_subAt_two ncols dtypes rows (by omega) cc)
  refine ⟨?_, hcells.1, hcells.2, fun j hj => cellAt_blankRow hj, fun sub b => ⟨rfl, rfl⟩⟩
  obtain ⟨pre, suf, h⟩ := insert_subtotals_segment ncols dtypes rows (c - 1) (by omega)
  have hcc : c - 1 + 1 = c := by omega
  rw [hcc] at h
  rw [checkpointRows_eq ncols (subAt ncols dtypes rows) hmem] at h
  refine ⟨pre ++ grpAt rows c ++ [subAt ncols dtypes rows c], suf, ?_⟩
  rw [h]
  simp [List.append_assoc]

/-- Concrete table with two groups for the rollup witness. -/
def w2rows : List Row :=
  [[Cell.str "A", Cell.num 1, Cell.blank, Cell.blank, Cell.blank, Cell.blank, Cell.blank,
    Cell.num 5],
   [Cell.str "B", Cell.num 2, Cell.blank, Cell.blank, Cell.blank, Cell.blank, Cell.blank,
    Cell.num 7]]

/-- Concrete corroboration of rollup_checkpoints at the first checkpoint. -/
theorem rollup_checkpoints_witness :
    cellAt (groupTotalRow 8 ([1, 2].map (subAt 8 w1dtypes w2rows)) "IND PROD TOTAL") 2
      = Cell.str "IND PROD TOTAL" ∧
    cellAt (groupTotalRow 8 ([1, 2].map (subAt 8 w1dtypes w2rows)) "IND PROD TOTAL") 7
      = if ((([1, 2].map (subAt 8 w1dtypes w2rows)).map
            fun r => safe_float (cellAt r 7)).sum) ≠ 0
        then Cell.num ((([1, 2].map (subAt 8 w1dtypes w2rows)).map
            fun r => safe_float (cellAt r 7)).sum)
        else Cell.blank :=
  ⟨(rollup_checkpoints 8 w1dtypes w2rows (by decide) 2 "IND PROD TOTAL" [1, 2]
      (by simp [checkpointSpec]) (by decide)).2.1,
   (rollup_checkpoints 8 w1dtypes w2rows (by decide) 2 "IND PROD TOTAL" [1, 2]
      (by simp [checkpointSpec]) (by decide)).2.2.1 7 (by decide) (by decide) (by decide)⟩

-- ===========================================================================
-- C4: net-pay column locator
-- ===========================================================================

/-- Acceptance test of the first locator strategy at a column index: some
positive values, with mean strictly between 1000 and 200000. -/
def netPayPlausible (rows : List Row) (t : Nat) : Bool :=
  decide (0 < (posVals rows t).length) && decide (1000 < meanVal (posVals rows t)) &&
    decide (meanVal (posVals rows t) < 200000)

/-- Acceptance test of the second strategy: more than 10 positive values and
a mean in the plausible range. -/
def scanPred (rows : List Row) (j : Nat) : Bool :=
  decide (10 < (posVals rows j).length) && decide (1000 < meanVal (posVals rows j)) &&
    decide (meanVal (posVals rows j) < 200000)

/-- Acceptance test of the header strategy. -/
def headerPred (headers : List (Option String)) (rows : List Row) (j : Nat) : Bool :=
  match headers.getD j none with
  | some name =>
    (containsStr (lowerStr name) "net" || containsStr (lowerStr name) "pay")
      && decide (10 < (posVals rows j).length)
  | none => false

theorem tryCandidates_eq_find (ncols : Nat) (rows : List Row) :
    ∀ ts : List Nat, tryCandidates ncols rows ts
      = ts.find? fun t => decide (t < ncols) && netPayPlausible rows t
  | [] => rfl
  | t :: ts => by
    unfold tryCandidates
    by_cases h1 : t < ncols
    · by_cases h2 : 0 < (posVals rows t).length ∧ 1000 < meanVal (posVals rows t)
          ∧ meanVal (posVals rows t) < 200000
      · rw [if_pos h1, if_pos h2, List.find?_cons_of_pos _ (show _ by
          simp only [netPayPlausible, Bool.and_eq_true, decide_eq_true_eq]
          exact ⟨h1, ⟨h2.1, h2.2.1⟩, h2.2.2⟩)]
      · rw [if_pos h1, if_neg h2, List.find?_cons_of_neg _ (show _ by
          simp only [netPayPlausible, Bool.and_eq_true, decide_eq_true_eq]
          intro hcon
          exact h2 ⟨hcon.2.1.1, hcon.2.1.2, hcon.2.2⟩)]
        exact tryCandidates_eq_find ncols rows ts
    · rw [if_neg h1, List.find?_cons_of_neg _ (show _ by
        simp only [netPayPlausible, Bool.and_eq_true, decide_eq_true_eq]
        intro hcon
        exact h1 hcon.1)]
      exact tryCandidates_eq_find ncols rows ts

theorem scanLoop_eq_find (rows : List Row) :
    ∀ js : List Nat, scanLoop rows js = js.find? (scanPred rows)
  | [] => rfl
  | j :: js => by
    unfold scanLoop
    by_cases h : 10 < (posVals rows j).length ∧ 1000 < meanVal (posVals rows j)
        ∧ meanVal (posVals rows j) < 200000
    · rw [if_pos h, List.find?_cons_of_pos _ (show _ by
        simp only [scanPred, Bool.and_eq_true, decide_eq_true_eq]
        exact ⟨⟨h.1, h.2.1⟩, h.2.2⟩)]
    · rw [if_neg h, List.find?_cons_of_neg _ (show _ by
        simp only [scanPred, Bool.and_eq_true, decide_eq_true_eq]
        intro hcon
        exact h ⟨hcon.1.1, hcon.1.2, hcon.2⟩)]
      exact scanLoop_eq_find rows js

theorem headerLoop_eq_find (headers : List (Option String)) (rows : List Row) :
    ∀ js : List Nat, headerLoop headers rows js = js.find? (headerPred headers rows)
  | [] => rfl
  | j :: js => by
    by_cases hp : headerPred headers rows j = true
    · rw [List.find?_cons_of_pos _ hp]
      unfold headerPred at hp
      unfold headerLoop
      simp only [List.getD_eq_getElem?_getD] at hp ⊢
      cases hX : headers[j]?.getD none with
      | none =>
        rw [hX] at hp
        exact absurd hp (by simp)
      | some name =>
        rw [hX] at hp
        simp only [Bool.and_eq_true, decide_eq_true_eq] at hp
        dsimp only
        rw [if_pos ⟨hp.1, hp.2⟩]
    · rw [List.find?_cons_of_neg _ hp]
      unfold headerPred at hp
      unfold headerLoop
      simp only [List.getD_eq_getElem?_getD] at hp ⊢
      cases hX : headers[j]?.getD none with
      | none => exact headerLoop_eq_find headers rows js
      | some name =>
        rw [hX] at hp
        simp only [Bool.and_eq_true, decide_eq_true_eq, not_and] at hp
        dsimp only
        rw [if_neg (show ¬((containsStr (lowerStr name) "net"
            || containsStr (lowerStr name) "pay") = true
            ∧ 10 < (posVals rows j).length) by
          intro hcon
          exact hp hcon.1 hcon.2)]
        exact headerLoop_eq_find headers rows js

/-- A column at candidate index 33 whose positive values all lie between
20000 and 40000 has a mean in the plausible band and is accepted by the
first strategy immediately. -/
theorem findNetPayCol_of_band33 (headers : List (Option String)) (ncols : Nat)
    (rows : List Row) (h33 : 33 < ncols) (hne : posVals rows 33 ≠ [])
    (hband : ∀ q ∈ posVals rows 33, 20000 ≤ q ∧ q ≤ 40000) :
    findNetPayCol headers ncols rows = some 33 := by
  have hlen : 0 < (posVals rows 33).length := List.length_pos.mpr hne
  have hlenq : (0 : ℚ) < ((posVals rows 33).length : ℚ) := by exact_mod_cast hlen
  have hlo : ((posVals rows 33).length : ℚ) * 20000 ≤ (posVals rows 33).sum := by
    have := List.card_nsmul_le_sum (l := posVals rows 33) (n := (20000 : ℚ))
      (fun x hx => (hband x hx).1)
    rwa [nsmul_eq_mul] at this
  have hhi : (posVals rows 33).sum ≤ ((posVals rows 33).length : ℚ) * 40000 := by
    have := List.sum_le_card_nsmul (l := posVals rows 33) (n := (40000 : ℚ))
      (fun x hx => (hband x hx).2)
    rwa [nsmul_eq_mul] at this
  have hm1 : 1000 < meanVal (posVals rows 33) := by
    unfold meanVal
    rw [lt_div_iff₀ hlenq]
    nlinarith
  have hm2 : meanVal (posVals rows 33) < 200000 := by
    unfold meanVal
    rw [div_lt_iff₀ hlenq]
    nlinarith
  unfold findNetPayCol
  rw [show candidateCols = 33 :: [34, 35, 32, 31, 40, 41, 42] from rfl]
  unfold tryCandidates
  rw [if_pos h33, if_pos ⟨hlen, hm1, hm2⟩]

/-- C4: the locator tries the fixed candidate list, then the right-to-left
scan of the trailing columns, then the header scan, accepting the first
match of each strategy in that priority order; a column at index 33 whose
positive values all lie in the 20000 to 40000 band is accepted immediately;
when every strategy fails the conversion aborts with ColumnNotFound. -/
theorem net_pay_locator_spec (headers : List (Option String)) (ncols : Nat)
    (rows : List Row) (dbase : List Row) :
    (tryCandidates ncols rows candidateCols
      = candidateCols.find? fun t => decide (t < ncols) && netPayPlausible rows t) ∧
    (scanLoop rows (scanDescend ncols) = (scanDescend ncols).find? (scanPred rows)) ∧
    (headerLoop headers rows (List.range ncols)
      = (List.range ncols).find? (headerPred headers rows)) ∧
    (∀ t, tryCandidates ncols rows candidateCols = some t →
      findNetPayCol headers ncols rows = some t) ∧
    (tryCandidates ncols rows candidateCols = none →
      ∀ t, scanLoop rows (scanDescend ncols) = some t →
        findNetPayCol headers ncols rows = some t) ∧
    (tryCandidates ncols rows candidateCols = none →
      scanLoop rows (scanDescend ncols) = none →
        findNetPayCol headers ncols rows = headerLoop headers rows (List.range ncols)) ∧
    (33 < ncols → posVals rows 33 ≠ [] →
      (∀ q ∈ posVals rows 33, 20000 ≤ q ∧ q ≤ 40000) →
      findNetPayCol headers ncols rows = some 33) ∧
    (findNetPayCol headers ncols rows = none →
      bdo_convert headers ncols rows dbase = Except.error ConvErr.columnNotFound) := by
  refine ⟨tryCandidates_eq_find ncols rows candidateCols,
    scanLoop_eq_find rows (scanDescend ncols),
    headerLoop_eq_find headers rows (List.range ncols), ?_, ?_, ?_, ?_, ?_⟩
  · intro t h
    unfold findNetPayCol
    rw [h]
  · intro h1 t h2
    unfold findNetPayCol
    rw [h1, h2]
  · intro h1 h2
    unfold findNetPayCol
    rw [h1, h2]
  · exact findNetPayCol_of_band33 headers ncols rows
  · intro h
    unfold bdo_convert
    rw [h]

/-- Single-row table whose only populated column is a value of 30000 at
index 33. -/
def w4rows : List Row :=
  [(List.range 34).map fun j => if j = 33 then Cell.num 30000 else Cell.blank]

/-- Concrete corroboration of the locator: the 30000-valued column at index
33 is returned. -/
theorem net_pay_locator_spec_witness : findNetPayCol [] 34 w4rows = some 33 :=
  (net_pay_locator_spec [] 34 w4rows []).2.2.2.2.2.2.1 (by decide) (by decide) (by decide)

-- ===========================================================================
-- C5: account acceptance and bank/cash routing
-- ===========================================================================

theorem mem_dinsert {d : List (String × String)} {k v : String} {p : String × String}
    (hp : p ∈ dinsert d k v) : p ∈ d ∨ p = (k, v) := by
  unfold dinsert at hp
  by_cases h : d.any (fun q => q.1 = k) = true
  · rw [if_pos h] at hp
    obtain ⟨q, hq, hpq⟩ := List.mem_map.mp hp
    by_cases hqk : q.1 = k
    · right
      rw [← hpq, if_pos hqk]
    · left
      rw [← hpq, if_neg hqk]
      exact hq
  · rw [if_neg h] at hp
    rcases List.mem_append.mp hp with h1 | h1
    · exact Or.inl h1
    · right
      simpa using h1

theorem buildStep_acct_invariant (acc : List (String × String) × List (String × String))
    (row : Row) (hacc : ∀ p ∈ acc.1, 10 ≤ p.2.length) :
    ∀ p ∈ (buildStep acc row).1, 10 ≤ p.2.length := by
  intro p hp
  unfold buildStep at hp
  cases hemp : empIdOf (cellAt row 0) with
  | none =>
    rw [hemp] at hp
    exact hacc p hp
  | some emp =>
    rw [hemp] at hp
    dsimp only at hp
    by_cases h3 : 3 < row.length ∧ cellAt row 3 ≠ Cell.blank
    · rw [if_pos h3] at hp
      by_cases h4 : acctStrOf (cellAt row 3) ≠ "" ∧ 10 ≤ (acctStrOf (cellAt row 3)).length
      · rw [if_pos h4] at hp
        rcases mem_dinsert hp with h5 | h5
        · exact hacc p h5
        · rw [h5]
          exact h4.2
      · rw [if_neg h4] at hp
        exact hacc p hp
    · rw [if_neg h3] at hp
      exact hacc p hp

/-- Every account stored in the reference index passed the length check. -/
theorem buildLookups_acct_len (dbase : List Row) :
    ∀ p ∈ (buildLookups dbase).1, 10 ≤ p.2.length := by
  unfold buildLookups
  suffices h : ∀ acc : List (String × String) × List (String × String),
      (∀ p ∈ acc.1, 10 ≤ p.2.length) →
      ∀ p ∈ (dbase.foldl buildStep acc).1, 10 ≤ p.2.length by
    exact h ([], []) (by simp)
  induction dbase with
  | nil =>
    intro acc hacc
    simpa using hacc
  | cons row rest ih =>
    intro acc hacc
    rw [List.foldl_cons]
    exact ih (buildStep acc row) (buildStep_acct_invariant acc row hacc)

theorem buildStep_acct_reject (acc : List (String × String) × List (String × String))
    (row : Row) (emp : String) (hemp : empIdOf (cellAt row 0) = some emp)
    (hshort : (acctStrOf (cellAt row 3)).length < 10) :
    (buildStep acc row).1 = acc.1 := by
  unfold buildStep
  rw [hemp]
  dsimp only
  by_cases h3 : 3 < row.length ∧ cellAt row 3 ≠ Cell.blank
  · rw [if_pos h3, if_neg (by
      intro hcon
      omega)]
  · rw [if_neg h3]

/-- C5: accounts are indexed only when their digits-only coercion is at
least 10 characters long (shorter accounts leave the lookup unchanged and
the employee accountless); a classified employee with an indexed account is
routed to the bank collection under the digits-only, zero-padded-to-10,
00-prefixed account number, and an employee with no indexed account goes to
the cash collection; the 11-digit account keeps its digits and gains only
the 00 prefix, while a 2-digit account is rejected at index-build time. -/
theorem account_routing_spec :
    (∀ dbase : List Row, ∀ p ∈ (buildLookups dbase).1, 10 ≤ p.2.length) ∧
    (∀ (acc : List (String × String) × List (String × String)) (row : Row) (emp : String),
      empIdOf (cellAt row 0) = some emp → (acctStrOf (cellAt row 3)).length < 10 →
      (buildStep acc row).1 = acc.1) ∧
    (∀ (cfg : ConvCfg) (st : ConvState) (row : Row) (id : String),
      resolveId row = some id → id ∉ st.processed → keywordHit row = false →
      0 < netPayOf cfg row →
      (∀ a, dget cfg.acctL id = some a →
        stepRow cfg st row = { st with
          bank := st.bank ++ [⟨"00" ++ pad10 (digitsOnly a), netPayOf cfg row,
            match dget cfg.nameL id with
            | some n => n
            | none => buildName row id⟩],
          processed := st.processed ++ [id] }) ∧
      (dget cfg.acctL id = none →
        stepRow cfg st row = { st with
          cash := st.cash ++ [⟨id, netPayOf cfg row,
            match dget cfg.nameL id with
            | some n => n
            | none => buildName row id⟩],
          processed := st.processed ++ [id] })) ∧
    dget (buildLookups [[Cell.str "1001", Cell.str "Doe, John", Cell.blank,
      Cell.str "00012345678"]]).1 "1001" = some "00012345678" ∧
    "00" ++ pad10 (digitsOnly "00012345678") = "0000012345678" ∧
    dget (buildLookups [[Cell.str "1002", Cell.str "Roe, Jane", Cell.blank,
      Cell.str "55"]]).1 "1002" = none := by
  refine ⟨buildLookups_acct_len, buildStep_acct_reject, ?_, by decide, by decide, by decide⟩
  intro cfg st row id hid hdup hkw hpay
  constructor
  · intro a ha
    unfold stepRow
    rw [hid]
    dsimp only
    rw [if_neg hdup, if_neg (by simp [hkw]), if_neg (not_le.mpr hpay), ha]
  · intro ha
    unfold stepRow
    rw [hid]
    dsimp only
    rw [if_neg hdup, if_neg (by simp [hkw]), if_neg (not_le.mpr hpay), ha]

/-- Payroll row for the routing witness: identifier 1001 and net pay 30000
at column 7. -/
def w5row : Row :=
  [Cell.str "X", Cell.str "1001", Cell.blank, Cell.blank, Cell.blank, Cell.blank,
   Cell.blank, Cell.num 30000]

/-- Concrete corroboration of the bank routing branch. -/
theorem account_routing_spec_witness :
    stepRow ⟨[("1001", "00012345678")], [], 7⟩ initState w5row
      = { initState with
          bank := initState.bank ++ [⟨"00" ++ pad10 (digitsOnly "00012345678"),
            netPayOf ⟨[("1001", "00012345678")], [], 7⟩ w5row,
            match dget ([] : List (String × String)) "1001" with
            | some n => n
            | none => buildName w5row "1001"⟩],
          processed := initState.processed ++ ["1001"] } :=
  (account_routing_spec.2.2.1 ⟨[("1001", "00012345678")], [], 7⟩ initState w5row "1001"
    (by decide) (by decide) (by decide) (by decide)).1 "00012345678" (by decide)

-- ===========================================================================
-- C7: NoValidRecords exactly when both collections end empty
-- ===========================================================================

/-- C7: with the net-pay column located, the conversion fails with
NoValidRecords carrying the account-lookup and name-lookup sizes exactly
when both the bank and the cash collection are empty after all rows are
processed; any NoValidRecords failure carries those sizes; and when either
collection is nonempty the conversion succeeds, returning both collections
with their totals and counts. -/
theorem no_valid_records_iff (headers : List (Option String)) (ncols : Nat)
    (paste dbase : List Row) (npc : Nat)
    (hcol : findNetPayCol headers ncols paste = some npc) :
    (bdo_convert headers ncols paste dbase
        = Except.error (ConvErr.noValidRecords (buildLookups dbase).1.length
            (buildLookups dbase).2.length)
      ↔ (paste.foldl (stepRow ⟨(buildLookups dbase).1, (buildLookups dbase).2, npc⟩)
            initState).bank = []
        ∧ (paste.foldl (stepRow ⟨(buildLookups dbase).1, (buildLookups dbase).2, npc⟩)
            initState).cash = []) ∧
    (∀ m n, bdo_convert headers ncols paste dbase
        = Except.error (ConvErr.noValidRecords m n) →
      m = (buildLookups dbase).1.length ∧ n = (buildLookups dbase).2.length ∧
      (paste.foldl (stepRow ⟨(buildLookups dbase).1, (buildLookups dbase).2, npc⟩)
          initState).bank = []
      ∧ (paste.foldl (stepRow ⟨(buildLookups dbase).1, (buildLookups dbase).2, npc⟩)
          initState).cash = []) ∧
    (¬((paste.foldl (stepRow ⟨(buildLookups dbase).1, (buildLookups dbase).2, npc⟩)
          initState).bank = []
        ∧ (paste.foldl (stepRow ⟨(buildLookups dbase).1, (buildLookups dbase).2, npc⟩)
            initState).cash = []) →
      bdo_convert headers ncols paste dbase = Except.ok
        ⟨((paste.foldl (stepRow ⟨(buildLookups dbase).1, (buildLookups dbase).2, npc⟩)
            initState).bank).mergeSort (fun a b => decide (a.name ≤ b.name)),
         ((paste.foldl (stepRow ⟨(buildLookups dbase).1, (buildLookups dbase).2, npc⟩)
            initState).cash).mergeSort (fun a b => decide (a.name ≤ b.name)),
         (((paste.foldl (stepRow ⟨(buildLookups dbase).1, (buildLookups dbase).2, npc⟩)
            initState).bank).map fun r => r.netPay).sum,
         (((paste.foldl (stepRow ⟨(buildLookups dbase).1, (buildLookups dbase).2, npc⟩)
            initState).cash).map fun r => r.netPay).sum,
         ((((paste.foldl (stepRow ⟨(buildLookups dbase).1, (buildLookups dbase).2, npc⟩)
            initState).bank).map fun r => r.netPay).sum)
           + ((((paste.foldl (stepRow ⟨(buildLookups dbase).1,
              (buildLookups dbase).2, npc⟩) initState).cash).map fun r => r.netPay).sum),
         ((paste.foldl (stepRow ⟨(buildLookups dbase).1, (buildLookups dbase).2, npc⟩)
            initState).bank).length,
         ((paste.foldl (stepRow ⟨(buildLookups dbase).1, (buildLookups dbase).2, npc⟩)
            initState).cash).length⟩) := by
  unfold bdo_convert
  rw [hcol]
  dsimp only
  by_cases hempty : (paste.foldl (stepRow ⟨(buildLookups dbase).1, (buildLookups dbase).2,
        npc⟩) initState).bank = []
      ∧ (paste.foldl (stepRow ⟨(buildLookups dbase).1, (buildLookups dbase).2, npc⟩)
          initState).cash = []
  · rw [if_pos hempty]
    refine ⟨⟨fun _ => hempty, fun _ => rfl⟩, ?_, fun hcon => absurd hempty hcon⟩
    intro m n h
    simp only [Except.error.injEq, ConvErr.noValidRecords.injEq] at h
    exact ⟨h.1.symm, h.2.symm, hempty.1, hempty.2⟩
  · rw [if_neg hempty]
    refine ⟨⟨fun h => ?_, fun h => absurd h hempty⟩, ?_, fun _ => rfl⟩
    · simp at h
    · intro m n h
      simp at h

/-- Single-row table for the NoValidRecords witness: a net-pay value at
index 33 but no resolvable identifier anywhere. -/
def w7rows : List Row :=
  [(List.range 34).map fun j => if j = 33 then Cell.num 30000 else Cell.blank]

/-- Concrete corroboration of the NoValidRecords branch. -/
theorem no_valid_records_iff_witness :
    bdo_convert [] 34 w7rows []
      = Except.error (ConvErr.noValidRecords (buildLookups ([] : List Row)).1.length
          (buildLookups ([] : List Row)).2.length) :=
  ((no_valid_records_iff [] 34 w7rows [] 33
    (findNetPayCol_of_band33 [] 34 w7rows (by decide) (by decide) (by decide))).1).mpr
    (by decide)

-- ===========================================================================
-- C6: deduplication counts only classified occurrences
-- ===========================================================================

/-- First payroll row of the duplicate scenario: identifier 1234 with a zero
net pay at the located column 33. -/
def c6row1 : Row :=
  (List.range 34).map fun j =>
    if j = 1 then Cell.str "1234" else if j = 33 then Cell.num 0 else Cell.blank

/-- Second payroll row of the duplicate scenario: the same identifier 1234
with net pay 30000. -/
def c6row2 : Row :=
  (List.range 34).map fun j =>
    if j = 1 then Cell.str "1234" else if j = 33 then Cell.num 30000 else Cell.blank

/-- C6 counterexample: the identifier 1234 resolves on both rows, the first
occurrence is skipped for nonpositive pay, and the second occurrence is then
classified to cash with the duplicate counter left at zero — so a later
occurrence of a repeated identifier is not skipped as a duplicate when the
first occurrence was itself skipped. -/
theorem duplicate_skip_counterexample :
    resolveId c6row1 = some "1234" ∧
    resolveId c6row2 = some "1234" ∧
    ([c6row1, c6row2].foldl (stepRow ⟨[], [], 33⟩) initState).cash
      = [⟨"1234", 30000, "Employee 1234"⟩] ∧
    ([c6row1, c6row2].foldl (stepRow ⟨[], [], 33⟩) initState).skipDup = 0 ∧
    ([c6row1, c6row2].foldl (stepRow ⟨[], [], 33⟩) initState).skipZero = 1 := by
  decide

/-- C6 amended: a row whose identifier is already marked as processed is
skipped and counted under duplicate; a row whose identifier is not yet
marked is never counted under duplicate, whatever earlier occurrences were
skipped for.  Identifiers are marked only on classification, so only
occurrences after a classified one count as duplicates. -/
theorem duplicate_skip_amended (cfg : ConvCfg) (st : ConvState) (row : Row) (id : String)
    (hid : resolveId row = some id) :
    (id ∈ st.processed → stepRow cfg st row = { st with skipDup := st.skipDup + 1 }) ∧
    (id ∉ st.processed → (stepRow cfg st row).skipDup = st.skipDup) := by
  constructor
  · intro hmem
    unfold stepRow
    rw [hid]
    dsimp only
    rw [if_pos hmem]
  · intro hmem
    unfold stepRow
    rw [hid]
    dsimp only
    rw [if_neg hmem]
    by_cases hkw : keywordHit row = true
    · rw [if_pos hkw]
    · rw [if_neg hkw]
      by_cases hz : netPayOf cfg row ≤ 0
      · rw [if_pos hz]
      · rw [if_neg hz]
        cases hacct : dget cfg.acctL id <;> rfl

/-- Concrete corroboration of the amended duplicate rule: with 1234 already
processed, the second row is counted as a duplicate. -/
theorem duplicate_skip_amended_witness :
    (stepRow ⟨[], [], 33⟩ { initState with processed := ["1234"] } c6row2).skipDup = 1 := by
  rw [(duplicate_skip_amended ⟨[], [], 33⟩ { initState with processed := ["1234"] } c6row2
    "1234" (by decide)).1 (by decide)]
  rfl

-- ===========================================================================
-- C10: the seen-identifier set tracks exactly the classified identifiers
-- ===========================================================================

theorem stepRow_invariant (cfg : ConvCfg) (st : ConvState) (row : Row)
    (h1 : st.processed.length = st.bank.length + st.cash.length)
    (h2 : st.processed.Nodup) :
    (stepRow cfg st row).processed.length
      = (stepRow cfg st row).bank.length + (stepRow cfg st row).cash.length ∧
    (stepRow cfg st row).processed.Nodup := by
  unfold stepRow
  cases hres : resolveId row with
  | none => exact ⟨h1, h2⟩
  | some id =>
    dsimp only
    by_cases hdup : id ∈ st.processed
    · rw [if_pos hdup]
      exact ⟨h1, h2⟩
    · rw [if_neg hdup]
      by_cases hkw : keywordHit row = true
      · rw [if_pos hkw]
        exact ⟨h1, h2⟩
      · rw [if_neg hkw]
        by_cases hz : netPayOf cfg row ≤ 0
        · rw [if_pos hz]
          exact ⟨h1, h2⟩
        · rw [if_neg hz]
          cases hacct : dget cfg.acctL id <;>
            exact ⟨by simp [h1]; omega, by simp [List.nodup_append, h2, hdup]⟩

theorem foldl_stepRow_invariant (cfg : ConvCfg) :
    ∀ (rows : List Row) (st : ConvState),
      st.processed.length = st.bank.length + st.cash.length → st.processed.Nodup →
      ((rows.foldl (stepRow cfg) st).processed.length
        = (rows.foldl (stepRow cfg) st).bank.length + (rows.foldl (stepRow cfg) st).cash.length
      ∧ (rows.foldl (stepRow cfg) st).processed.Nodup)
  | [], _, hh1, hh2 => ⟨hh1, hh2⟩
  | row :: rest, st, hh1, hh2 => by
    rw [List.foldl_cons]
    obtain ⟨g1, g2⟩ := stepRow_invariant cfg st row hh1 hh2
    exact foldl_stepRow_invariant cfg rest _ g1 g2

/-- C10: each classifier step either leaves the seen set and both
collections untouched (a skipped row), or classifies the resolved, not yet
seen identifier, appending it to the seen set and exactly one record to
exactly one collection; hence over any run the seen set has no duplicates
and its size equals the total number of classified records; and a row whose
identifier is not yet seen with the keyword filter off and positive net pay
is always classified, never counted as a duplicate. -/
theorem seen_set_invariant :
    (∀ (cfg : ConvCfg) (st : ConvState) (row : Row),
      ((stepRow cfg st row).processed = st.processed ∧ (stepRow cfg st row).bank = st.bank
        ∧ (stepRow cfg st row).cash = st.cash) ∨
      (∃ id, resolveId row = some id ∧ id ∉ st.processed ∧
        (stepRow cfg st row).processed = st.processed ++ [id] ∧
        ((∃ b, (stepRow cfg st row).bank = st.bank ++ [b]
            ∧ (stepRow cfg st row).cash = st.cash) ∨
         (∃ c, (stepRow cfg st row).cash = st.cash ++ [c] ∧ c.empId = id
            ∧ (stepRow cfg st row).bank = st.bank)))) ∧
    (∀ (cfg : ConvCfg) (rows : List Row),
      (rows.foldl (stepRow cfg) initState).processed.length
        = (rows.foldl (stepRow cfg) initState).bank.length
          + (rows.foldl (stepRow cfg) initState).cash.length ∧
      (rows.foldl (stepRow cfg) initState).processed.Nodup) ∧
    (∀ (cfg : ConvCfg) (st : ConvState) (row : Row) (id : String),
      resolveId row = some id → id ∉ st.processed → keywordHit row = false →
      0 < netPayOf cfg row →
      (stepRow cfg st row).skipDup = st.skipDup ∧
      (stepRow cfg st row).bank.length + (stepRow cfg st row).cash.length
        = st.bank.length + st.cash.length + 1 ∧
      (stepRow cfg st row).processed = st.processed ++ [id]) := by
  refine ⟨?_, ?_, ?_⟩
  · intro cfg st row
    unfold stepRow
    cases hres : resolveId row with
    | none => exact Or.inl ⟨rfl, rfl, rfl⟩
    | some id =>
      dsimp only
      by_cases hdup : id ∈ st.processed
      · rw [if_pos hdup]
        exact Or.inl ⟨rfl, rfl, rfl⟩
      · rw [if_neg hdup]
        by_cases hkw : keywordHit row = true
        · rw [if_pos hkw]
          exact Or.inl ⟨rfl, rfl, rfl⟩
        · rw [if_neg hkw]
          by_cases hz : netPayOf cfg row ≤ 0
          · rw [if_pos hz]
            exact Or.inl ⟨rfl, rfl, rfl⟩
          · rw [if_neg hz]
            cases hacct : dget cfg.acctL id with
            | some a =>
              exact Or.inr ⟨id, rfl, hdup, rfl, Or.inl ⟨_, rfl, rfl⟩⟩
            | none =>
              exact Or.inr ⟨id, rfl, hdup, rfl, Or.inr ⟨_, rfl, rfl, rfl⟩⟩
  · intro cfg rows
    exact foldl_stepRow_invariant cfg rows initState rfl List.nodup_nil
  · intro cfg st row id hid hdup hkw hpay
    unfold stepRow
    rw [hid]
    dsimp only
    rw [if_neg hdup, if_neg (by simp [hkw]), if_neg (not_le.mpr hpay)]
    cases hacct : dget cfg.acctL id <;>
      exact ⟨rfl, by simp; omega, rfl⟩

/-- Payroll row for the seen-set witness: identifier 777 and positive pay at
column 7. -/
def w10row : Row :=
  [Cell.str "X", Cell.str "777", Cell.blank, Cell.blank, Cell.blank, Cell.blank,
   Cell.blank, Cell.num 12345]

/-- Concrete corroboration of the always-classified clause. -/
theorem seen_set_invariant_witness :
    (stepRow ⟨[], [], 7⟩ initState w10row).skipDup = initState.skipDup ∧
    (stepRow ⟨[], [], 7⟩ initState w10row).bank.length
        + (stepRow ⟨[], [], 7⟩ initState w10row).cash.length
      = initState.bank.length + initState.cash.length + 1 ∧
    (stepRow ⟨[], [], 7⟩ initState w10row).processed = initState.processed ++ ["777"] :=
  seen_set_invariant.2.2 ⟨[], [], 7⟩ initState w10row "777"
    (by decide) (by decide) (by decide) (by decide)

-- ===========================================================================
-- C9: no InsufficientColumns failure in the processing pipeline
-- ===========================================================================

/-- Five-column payroll table for the narrow-table scenario. -/
def c9rows : List Row :=
  [[Cell.str "E1", Cell.num 1, Cell.str "N", Cell.num 0, Cell.num 100]]

/-- The enriched form of the single row of c9rows against an empty
database. -/
def c9erow : Row :=
  [Cell.str "Not in dbase", Cell.str "E1", Cell.str "Not in dbase", Cell.num 1,
   Cell.str "N", Cell.num 0, Cell.num 100]

/-- C9 counterexample: on a 5-column table (7 after enrichment) the spec
contract aborts with InsufficientColumns, while the source pipeline
completes normally and still emits the report ending in the grand total
row. -/
theorem insufficient_columns_counterexample :
    processPayrollSpecContract 5 [] c9rows = Except.error ProcErr.insufficientColumns ∧
    (process 5 [] c9rows).getLast?.map (fun r => cellAt r 2)
      = some (Cell.str "GRAND TOTAL DAILY") := by
  constructor
  · rfl
  · have h0 : process 5 [] c9rows
        = insert_subtotals 7 (inferDtypes 7 (sort_data [c9erow])) (sort_data [c9erow]) := rfl
    rw [h0, show sort_data [c9erow] = [c9erow] by simp [sort_data]]
    decide

/-- C9 amended: the processing pipeline has no InsufficientColumns failure:
the spec contract rejects exactly the inputs with fewer than 8 columns and
otherwise defers to the source pipeline, while in the source the only
behavior tied to that boundary is that the 13th-month column is appended
exactly when the enriched table is wider than 7 columns; an
otherwise-processable narrow table, such as the 5-column example, is
processed to completion, ending in the grand total row. -/
theorem process_never_insufficient :
    (∀ (ncols : Nat) (rows : List Row), ncols ≤ 7 → add_13th_month ncols rows = rows) ∧
    (∀ (ncols : Nat) (rows : List Row), 7 < ncols →
      add_13th_month ncols rows
        = rows.map fun r => r ++ [Cell.num (safe_float (cellAt r 7) / 12)]) ∧
    (∀ (ncols : Nat) (dbase rows : List Row),
      processPayrollSpecContract ncols dbase rows
          = Except.error ProcErr.insufficientColumns
        ↔ ncols < 8) ∧
    (∀ (ncols : Nat) (dbase rows : List Row), 8 ≤ ncols →
      processPayrollSpecContract ncols dbase rows = Except.ok (process ncols dbase rows)) ∧
    (process 5 [] c9rows).getLast?.map (fun r => cellAt r 2)
      = some (Cell.str "GRAND TOTAL DAILY") := by
  refine ⟨?_, ?_, ?_, ?_, ?_⟩
  · intro ncols rows h
    unfold add_13th_month
    rw [if_neg (by omega)]
  · intro ncols rows h
    unfold add_13th_month
    rw [if_pos h]
  · intro ncols dbase rows
    unfold processPayrollSpecContract
    by_cases h : ncols < 8
    · rw [if_pos h]
      simp [h]
    · rw [if_neg h]
      simp [h]
  · intro ncols dbase rows h
    unfold processPayrollSpecContract
    rw [if_neg (by omega)]
  · have h0 : process 5 [] c9rows
        = insert_subtotals 7 (inferDtypes 7 (sort_data [c9erow])) (sort_data [c9erow]) := rfl
    rw [h0, show sort_data [c9erow] = [c9erow] by simp [sort_data]]
    decide

/-- Concrete corroboration of the amended claim: the 13th-month column is
skipped at enriched width 7, and at 8 raw columns the spec contract defers
to the pipeline. -/
theorem process_never_insufficient_witness :
    add_13th_month 7 (sort_data (add_lookups [] c9rows))
        = sort_data (add_lookups [] c9rows) ∧
      processPayrollSpecContract 8 [] c9rows = Except.ok (process 8 [] c9rows) :=
  ⟨process_never_insufficient.1 7 (sort_data (add_lookups [] c9rows)) (by decide),
   process_never_insufficient.2.2.2.1 8 [] c9rows (by decide)⟩
